import Mathlib

/-!
Verification of the vpath crate: a typed path-composition utility built around
`VirtualPath<M>` (a pair of a `base` path and a relative `path`, phantom-tagged
as directory or file) and three validated component wrappers `AbsolutePath`,
`Dirname` and `Filename`.

Paths are embedded at the component level, matching Rust `Path` semantics on a
Unix host.  This is the right granularity because Rust `Path`/`PathBuf`
equality (and hence the derived `PartialEq` of `VirtualPath`) compares the
component sequences produced by `Path::components()`, not the raw bytes.  A
path value is therefore a root flag (`has_root`, which on Unix coincides with
`is_absolute`) together with the list of non-root components, where a
component is `CurDir` (`.`), `ParentDir` (`..`) or a normal named segment.
-/

deriving instance DecidableEq for Except

namespace VPathModel

/-- A non-root path component, as produced by Rust `Path::components()` on
Unix: `CurDir` (`.`), `ParentDir` (`..`) or a normal named segment (a
non-empty run of bytes without a separator). -/
inductive Comp where
  | curDir
  | parentDir
  | normal (s : List Char)
deriving DecidableEq

/-- Component-level view of a Rust `PathBuf` on Unix: whether the path has a
root (`Path::has_root`, equal to `is_absolute` on Unix) plus its non-root
components in order.  Rust path equality is componentwise, so two `PathBuf`s
are equal exactly when they have the same `RPath`. -/
structure RPath where
  hasRoot : Bool
  comps : List Comp
deriving DecidableEq

/-- The empty path (`PathBuf::default()` / `PathBuf::new()`): no root, no
components. -/
def emptyPath : RPath := ⟨false, []⟩

/-- `Path::is_absolute` on Unix, which is defined as `has_root`. -/
def isAbsolute (p : RPath) : Bool := p.hasRoot

/-- The full component sequence exactly as `Path::components()` yields it: a
`none` entry stands for the `RootDir` component, `some c` for a non-root
component. -/
def fullList (p : RPath) : List (Option Comp) :=
  (if p.hasRoot then [none] else []) ++ p.comps.map some

/-- `Path::components()` keeps a `CurDir` only at the literal start of the
path string.  When a relative path is pushed onto a non-empty buffer a
separator is inserted first, so a leading `CurDir` of the pushed path is no
longer at the start and vanishes from the component view. -/
def dropCur : List Comp → List Comp
  | Comp.curDir :: rest => rest
  | l => l

/-- Component-level semantics of `PathBuf::push` on Unix: an absolute
argument replaces the whole buffer; pushing onto an empty buffer yields the
argument verbatim (no separator is inserted, so a leading `CurDir` survives);
otherwise a separator is inserted and the argument's components are appended,
with a leading `CurDir` of the argument normalized away. -/
def pushPath (self p : RPath) : RPath :=
  if isAbsolute p then p
  else if self = emptyPath then p
  else ⟨self.hasRoot, self.comps ++ dropCur p.comps⟩

/-- Spec-side definition, written from the spec's words: `to_path_buf` output
"equals `base` concatenated with `path`, in that order, with host-standard
path-joining semantics (an absolute `path` component if ever present via a raw
bypass would override the base per ordinary path-join semantics)".  Host
concatenation of path strings normalizes an interior `CurDir` away and keeps
the base's root. -/
def joinSpec (base p : RPath) : RPath :=
  if isAbsolute p then p
  else ⟨base.hasRoot, if base = emptyPath then p.comps else base.comps ++ dropCur p.comps⟩

/-- Rust `iter_after` (the engine of `Path::strip_prefix`): walk both
component iterators in lockstep; fail on the first mismatch, and when the
prefix iterator is exhausted return the remaining components of `self`. -/
def iterAfter : List (Option Comp) → List (Option Comp) → Option (List (Option Comp))
  | it, [] => some it
  | [], _ :: _ => none
  | x :: xs, y :: ys => if x = y then iterAfter xs ys else none

/-- Rebuild a path from a remaining full component sequence
(`Components::as_path` after `iter_after`): a leading `RootDir` marker makes
the result absolute, everything else is the component list. -/
def ofFull : List (Option Comp) → RPath
  | none :: rest => ⟨true, rest.filterMap id⟩
  | l => ⟨false, l.filterMap id⟩

/-- `Path::strip_prefix`: componentwise prefix removal.  The error type
mirrors Rust's opaque unit struct `StripPrefixError`. -/
def RPath.stripPrefix (self pre : RPath) : Except Unit RPath :=
  match iterAfter (fullList self) (fullList pre) with
  | some rest => Except.ok (ofFull rest)
  | none => Except.error ()

/-- `Path::file_name`: the final component if it is a normal segment, nothing
if the path is empty or ends in `RootDir`, `CurDir` or `ParentDir`. -/
def fileName (p : RPath) : Option (List Char) :=
  match p.comps.getLast? with
  | some (Comp.normal s) => some s
  | _ => none

/-- Split a file name at its last dot (`rsplit_file_at_dot` without the `..`
guard): `some (before, after)` when a dot exists, `none` otherwise.  The
recursion prefers a split found in the tail, so the chosen dot is the last
one. -/
def rsplitDot : List Char → Option (List Char × List Char)
  | [] => none
  | c :: rest =>
    match rsplitDot rest with
    | some (b, a) => some (c :: b, a)
    | none => if c = '.' then some ([], rest) else none

/-- `Path::extension` restricted to a file name: the part after the last dot,
unless the name is `..`, has no dot, or the dot is leading (empty stem), in
which case there is no extension.  Mirrors Rust's
`rsplit_file_at_dot` + `before.and(after)`. -/
def extOfName (s : List Char) : Option (List Char) :=
  if s = ['.', '.'] then none
  else
    match rsplitDot s with
    | none => none
    | some ([], _) => none
    | some (_ :: _, a) => some a

/-- `Path::file_stem` restricted to a file name: the part before the last
dot, or the whole name when it is `..`, has no dot, or the dot is leading.
Mirrors Rust's `rsplit_file_at_dot` + `before.or(after)`. -/
def stemOfName (s : List Char) : List Char :=
  if s = ['.', '.'] then s
  else
    match rsplitDot s with
    | none => s
    | some ([], _) => s
    | some (b :: bs, _) => b :: bs

/-- `Path::extension`: extension of the final normal component, if any. -/
def RPath.extension (p : RPath) : Option (List Char) :=
  (fileName p).bind extOfName

/-- `PathBuf::set_extension`: a no-op when the path has no file stem
(equivalently, no file name); otherwise the buffer is truncated to the end of
the stem and, when the new extension is non-empty, a dot and the extension
are appended.  The component view: the final normal component `n` is replaced
by `stem(n)` or `stem(n) ++ "." ++ e`.  Extensions are modelled as
separator-free segments (an `OsStr` used as part of a single component),
matching the scope of every specified use. -/
def RPath.setExtension (p : RPath) (e : List Char) : RPath :=
  match fileName p with
  | none => p
  | some n =>
    let newName := if e = [] then stemOfName n else stemOfName n ++ '.' :: e
    ⟨p.hasRoot, p.comps.dropLast ++ [Comp.normal newName]⟩

/-- Marker type identifying a `VirtualPath` as a directory (Rust's zero-size
`DirMarker`). -/
structure DirMarker where
deriving DecidableEq

/-- Marker type identifying a `VirtualPath` as a file (Rust's zero-size
`FileMarker`). -/
structure FileMarker where
deriving DecidableEq

/-- `VirtualPath<M>`: a switchable `base` path plus an accumulated relative
`path`, phantom-tagged by the marker type `M`. -/
structure VirtualPath (M : Type) where
  base : RPath
  path : RPath
deriving DecidableEq

/-- `AbsolutePath`: validated wrapper around one path value; the invariant
(the wrapped path is absolute) is enforced only at construction. -/
structure AbsolutePath where
  val : RPath
deriving DecidableEq

/-- Error for `AbsolutePath` construction (Rust's unit struct
`AbsolutePathError`). -/
structure AbsolutePathError where
deriving DecidableEq

/-- `Dirname`: validated wrapper around one relative path segment (possibly
several nested components). -/
structure Dirname where
  name : RPath
deriving DecidableEq

/-- Errors for `Dirname` construction. -/
inductive DirnameError where
  | empty
  | absolute
deriving DecidableEq

/-- `Filename`: validated wrapper around a file-designating relative path. -/
structure Filename where
  name : RPath
deriving DecidableEq

/-- Errors for `Filename` construction. -/
inductive FilenameError where
  | empty
  | hasRoot
deriving DecidableEq

/-- `TryFrom<&Path> for AbsolutePath`: succeed exactly when the input is
absolute, keeping it unmodified. -/
def AbsolutePath.tryFrom (p : RPath) : Except AbsolutePathError AbsolutePath :=
  if isAbsolute p then Except.ok ⟨p⟩ else Except.error ⟨⟩

/-- `TryFrom<&Path> for Dirname`: `Empty` when the input has no components at
all, `Absolute` when it is absolute, success otherwise. -/
def Dirname.tryFrom (p : RPath) : Except DirnameError Dirname :=
  if fullList p = [] then Except.error DirnameError.empty
  else if isAbsolute p then Except.error DirnameError.absolute
  else Except.ok ⟨p⟩

/-- `TryFrom<&Path> for Filename`: `Empty` when the input has no components
at all, `HasRoot` when it is absolute, success otherwise. -/
def Filename.tryFrom (p : RPath) : Except FilenameError Filename :=
  if fullList p = [] then Except.error FilenameError.empty
  else if isAbsolute p then Except.error FilenameError.hasRoot
  else Except.ok ⟨p⟩

/-- `VirtualPath::to_path_buf`: clone the base and `push` the relative path
onto it. -/
def VirtualPath.toPathBuf (v : VirtualPath M) : RPath :=
  pushPath v.base v.path

/-- `VirtualPath::with_base`: a new value with the base replaced by a copy of
the given absolute path's contents; the relative path is unchanged and the
receiver is not mutated. -/
def VirtualPath.withBase (v : VirtualPath M) (b : AbsolutePath) : VirtualPath M :=
  ⟨b.val, v.path⟩

/-- `VirtualPath::has_base`: `self.base.components().count() > 0`. -/
def VirtualPath.hasBase (v : VirtualPath M) : Bool :=
  decide (0 < (fullList v.base).length)

/-- `VirtualPath::strip_prefix`: strip the prefix from the relative `path`
component only, keeping the base and the state tag. -/
def VirtualPath.stripPrefix (v : VirtualPath M) (pre : RPath) : Except Unit (VirtualPath M) :=
  match RPath.stripPrefix v.path pre with
  | Except.ok stripped => Except.ok ⟨v.base, stripped⟩
  | Except.error e => Except.error e

/-- `VirtualPath::push_dir_raw` (state-passing form of the in-place
mutation): push an unchecked directory path onto the relative path. -/
def VirtualPath.pushDirRaw (v : VirtualPath DirMarker) (dir : RPath) : VirtualPath DirMarker :=
  ⟨v.base, pushPath v.path dir⟩

/-- `VirtualPath::push_dir` (state-passing form of the in-place mutation):
push a validated `Dirname` onto the relative path. -/
def VirtualPath.pushDir (v : VirtualPath DirMarker) (d : Dirname) : VirtualPath DirMarker :=
  ⟨v.base, pushPath v.path d.name⟩

/-- `VirtualPath::with_dir_raw`: functional variant of `push_dir_raw`. -/
def VirtualPath.withDirRaw (v : VirtualPath DirMarker) (dir : RPath) : VirtualPath DirMarker :=
  ⟨v.base, pushPath v.path dir⟩

/-- `VirtualPath::with_dir`: functional variant of `push_dir`, delegating to
`with_dir_raw` on the wrapped name. -/
def VirtualPath.withDir (v : VirtualPath DirMarker) (d : Dirname) : VirtualPath DirMarker :=
  VirtualPath.withDirRaw v d.name

/-- `VirtualPath::with_file_raw`: push an unchecked file path onto the
relative path, transitioning to file state. -/
def VirtualPath.withFileRaw (v : VirtualPath DirMarker) (file : RPath) : VirtualPath FileMarker :=
  ⟨v.base, pushPath v.path file⟩

/-- `VirtualPath::with_file`: push a validated `Filename`, transitioning to
file state. -/
def VirtualPath.withFile (v : VirtualPath DirMarker) (f : Filename) : VirtualPath FileMarker :=
  VirtualPath.withFileRaw v f.name

/-- `VirtualPath::extension` (file state): extension of the relative path. -/
def VirtualPath.extension (v : VirtualPath FileMarker) : Option (List Char) :=
  RPath.extension v.path

/-- `VirtualPath::file_stem` (file state): `self.path.file_stem().unwrap()`.
The `unwrap` of Rust's `Option` is modelled by keeping the `Option`: a `none`
result corresponds to the panic of `unwrap`. -/
def VirtualPath.fileStem (v : VirtualPath FileMarker) : Option (List Char) :=
  (fileName v.path).map stemOfName

/-- `VirtualPath::set_extension` (state-passing form of the in-place
mutation). -/
def VirtualPath.setExtension (v : VirtualPath FileMarker) (e : List Char) : VirtualPath FileMarker :=
  ⟨v.base, RPath.setExtension v.path e⟩

/-- `VirtualPath::with_extension`: sets the extension and returns `self`. -/
def VirtualPath.withExtension (v : VirtualPath FileMarker) (e : List Char) : VirtualPath FileMarker :=
  VirtualPath.setExtension v e

/-- `Default for VirtualPath<DirMarker>`: empty base, empty relative path,
directory state. -/
def VirtualPath.defaultDir : VirtualPath DirMarker :=
  ⟨emptyPath, emptyPath⟩

/-! ## Helper lemmas -/

theorem pushPath_emptyLeft (p : RPath) : pushPath emptyPath p = p := by
  unfold pushPath
  by_cases h : isAbsolute p = true <;> simp [h]

theorem filterMap_id_map_some (l : List Comp) : (l.map some).filterMap id = l := by
  induction l with
  | nil => rfl
  | cons a t ih => simp [ih]

theorem ofFull_nil : ofFull [] = ⟨false, []⟩ := rfl

theorem ofFull_none (rest : List (Option Comp)) :
    ofFull (none :: rest) = ⟨true, rest.filterMap id⟩ := rfl

theorem ofFull_some (c : Comp) (rest : List (Option Comp)) :
    ofFull (some c :: rest) = ⟨false, (some c :: rest).filterMap id⟩ := rfl

theorem ofFull_map_some (l : List Comp) : ofFull (l.map some) = ⟨false, l⟩ := by
  cases l with
  | nil => rfl
  | cons c t =>
    rw [List.map_cons, ofFull_some, ← List.map_cons]
    rw [filterMap_id_map_some]

theorem ofFull_fullList (x : RPath) : ofFull (fullList x) = x := by
  obtain ⟨hr, cs⟩ := x
  cases hr
  · show ofFull (cs.map some) = _
    simpa [fullList] using ofFull_map_some cs
  · show ofFull (none :: cs.map some) = _
    rw [ofFull_none, filterMap_id_map_some]

theorem fullList_ofFull_drop (x : RPath) (k : Nat) :
    fullList (ofFull ((fullList x).drop k)) = (fullList x).drop k := by
  obtain ⟨hr, cs⟩ := x
  cases hr
  · have h : (fullList ⟨false, cs⟩).drop k = (cs.drop k).map some := by
      simp [fullList]
    rw [h, ofFull_map_some]
    simp [fullList]
  · cases k with
    | zero => rw [List.drop_zero, ofFull_fullList]
    | succ j =>
      have h : (fullList ⟨true, cs⟩).drop (j + 1) = (cs.drop j).map some := by
        simp [fullList]
      rw [h, ofFull_map_some]
      simp [fullList]

theorem iterAfter_some_eq : ∀ (p l r : List (Option Comp)), iterAfter l p = some r → l = p ++ r
  | [], l, r, h => by simpa [iterAfter] using h
  | y :: ys, [], r, h => by simp [iterAfter] at h
  | y :: ys, x :: xs, r, h => by
    by_cases hxy : x = y
    · subst hxy
      have h' : iterAfter xs ys = some r := by simpa [iterAfter] using h
      have := iterAfter_some_eq ys xs r h'
      rw [List.cons_append, ← this]
    · simp [iterAfter, hxy] at h

theorem iterAfter_append (p r : List (Option Comp)) : iterAfter (p ++ r) p = some r := by
  induction p with
  | nil => simp [iterAfter]
  | cons y ys ih => simp [iterAfter, ih]

/-! ## Claims -/

/-- C1: for every `VirtualPath` value `v` in either state, `v.to_path_buf()`
equals `v`'s base path joined with `v`'s relative path, in that order, with
host-standard path-join semantics; in particular an absolute relative path
(possible only through raw operations) overrides the base and the join result
is the relative path alone. -/
theorem claim_c1 (M : Type) (v : VirtualPath M) :
    VirtualPath.toPathBuf v = joinSpec v.base v.path
      ∧ (isAbsolute v.path = true → VirtualPath.toPathBuf v = v.path) := by
  obtain ⟨b, p⟩ := v
  constructor
  · show pushPath b p = joinSpec b p
    unfold pushPath joinSpec
    by_cases hp : isAbsolute p = true
    · simp [hp]
    · have hp' : p.hasRoot = false := by
        simpa [isAbsolute] using hp
      by_cases hb : b = emptyPath
      · subst hb
        simp [hp, emptyPath]
        obtain ⟨hr, cs⟩ := p
        simp at hp'
        simp [hp']
      · simp [hp, hb]
  · intro habs
    show pushPath b p = p
    unfold pushPath
    simp [habs]

def exAbsPathDir : VirtualPath DirMarker := ⟨emptyPath, ⟨true, [Comp.normal ['a']]⟩⟩

theorem claim_c1_witness :
    isAbsolute exAbsPathDir.path = true
      ∧ VirtualPath.toPathBuf exAbsPathDir = exAbsPathDir.path :=
  ⟨by decide, (claim_c1 DirMarker exAbsPathDir).2 (by decide)⟩

/-- C8: `has_base()` is true iff the base currently has at least one path
component (the `RootDir` component counts, as in `Path::components`), and is
false on the default value, whose base is empty. -/
theorem claim_c8 (M : Type) (v : VirtualPath M) :
    (VirtualPath.hasBase v = true ↔ fullList v.base ≠ [])
      ∧ VirtualPath.hasBase VirtualPath.defaultDir = false := by
  refine ⟨?_, by decide⟩
  simp [VirtualPath.hasBase, List.length_pos]

theorem claim_c8_witness :
    VirtualPath.hasBase VirtualPath.defaultDir = false :=
  (claim_c8 DirMarker VirtualPath.defaultDir).2

/-- C9: stripping the empty prefix always succeeds and returns a value equal
to the original (same base, same relative path, same state tag): the empty
prefix is an identity for `strip_prefix`.  Equality here is the componentwise
equality that Rust's derived `PartialEq` on `VirtualPath` performs. -/
theorem claim_c9 (M : Type) (v : VirtualPath M) :
    VirtualPath.stripPrefix v emptyPath = Except.ok v := by
  obtain ⟨b, p⟩ := v
  have hiter : iterAfter (fullList p) (fullList emptyPath) = some (fullList p) := by
    show iterAfter (fullList p) [] = some (fullList p)
    simp [iterAfter]
  unfold VirtualPath.stripPrefix RPath.stripPrefix
  rw [hiter]
  simp [ofFull_fullList]

/-- C10: rebasing replaces the base wholesale: chaining `with_base` calls
never accumulates path components and only the last call determines the
base. -/
theorem claim_c10 (M : Type) (v : VirtualPath M) (A B : AbsolutePath) :
    VirtualPath.withBase (VirtualPath.withBase v A) B = VirtualPath.withBase v B := rfl

theorem foldl_withDir_base (ds : List Dirname) (v : VirtualPath DirMarker) :
    (ds.foldl VirtualPath.withDir v).base = v.base := by
  induction ds generalizing v with
  | nil => rfl
  | cons d t ih => simpa [VirtualPath.withDir, VirtualPath.withDirRaw] using ih (VirtualPath.withDir v d)

theorem foldl_withDir_path (ds : List Dirname) (v : VirtualPath DirMarker) :
    (ds.foldl VirtualPath.withDir v).path
      = ds.foldl (fun a d => pushPath a d.name) v.path := by
  induction ds generalizing v with
  | nil => rfl
  | cons d t ih => simp [List.foldl_cons, ih, VirtualPath.withDir, VirtualPath.withDirRaw]

/-- C3: for every sequence of validated `Dirname` pushes onto the default
directory-state value, followed by one `with_file` attachment of a validated
`Filename`, `to_path_buf()` equals the host-path-join of all the pushed
segments in order followed by the file segment.  `push_dir` and `with_dir`
append the same segment (the in-place push, in state-passing form, is the
functional variant), so the same holds for any mix of the two. -/
theorem claim_c3 (ds : List Dirname) (f : Filename) :
    VirtualPath.toPathBuf (VirtualPath.withFile (ds.foldl VirtualPath.withDir VirtualPath.defaultDir) f)
        = (ds.map Dirname.name ++ [f.name]).foldl pushPath emptyPath
      ∧ (∀ (v : VirtualPath DirMarker) (d : Dirname), VirtualPath.pushDir v d = VirtualPath.withDir v d) := by
  refine ⟨?_, fun v d => rfl⟩
  have hbase : (ds.foldl VirtualPath.withDir VirtualPath.defaultDir).base = emptyPath :=
    foldl_withDir_base ds VirtualPath.defaultDir
  have hpath : (ds.foldl VirtualPath.withDir VirtualPath.defaultDir).path
      = ds.foldl (fun a d => pushPath a d.name) emptyPath :=
    foldl_withDir_path ds VirtualPath.defaultDir
  show pushPath _ _ = _
  rw [List.foldl_append, List.foldl_map]
  show pushPath (VirtualPath.withFileRaw _ f.name).base (VirtualPath.withFileRaw _ f.name).path = _
  simp only [VirtualPath.withFileRaw, hbase, hpath, List.foldl_cons, List.foldl_nil]
  rw [pushPath_emptyLeft]

/-- C2: `Dirname::try_from` succeeds iff the input has at least one path
component and is not absolute (`Empty` on zero components, `Absolute` on a
root); `Filename::try_from` succeeds under the same predicate (`Empty` /
`HasRoot`); `AbsolutePath::try_from` succeeds iff the input is absolute and
fails with `AbsolutePathError` otherwise, including on the empty path. -/
theorem claim_c2 (p : RPath) :
    ((∃ d, Dirname.tryFrom p = Except.ok d) ↔ (0 < (fullList p).length ∧ isAbsolute p = false))
      ∧ (fullList p = [] → Dirname.tryFrom p = Except.error DirnameError.empty)
      ∧ (isAbsolute p = true → Dirname.tryFrom p = Except.error DirnameError.absolute)
      ∧ ((∃ f, Filename.tryFrom p = Except.ok f) ↔ (0 < (fullList p).length ∧ isAbsolute p = false))
      ∧ (fullList p = [] → Filename.tryFrom p = Except.error FilenameError.empty)
      ∧ (isAbsolute p = true → Filename.tryFrom p = Except.error FilenameError.hasRoot)
      ∧ ((∃ a, AbsolutePath.tryFrom p = Except.ok a) ↔ isAbsolute p = true)
      ∧ (isAbsolute p = false → AbsolutePath.tryFrom p = Except.error ⟨⟩) := by
  obtain ⟨hr, cs⟩ := p
  cases hr <;> cases cs <;>
    simp [Dirname.tryFrom, Filename.tryFrom, AbsolutePath.tryFrom, fullList, isAbsolute, emptyPath]

theorem claim_c2_witness :
    isAbsolute ⟨true, ([] : List Comp)⟩ = true
      ∧ Dirname.tryFrom ⟨true, []⟩ = Except.error DirnameError.absolute
      ∧ Filename.tryFrom ⟨true, []⟩ = Except.error FilenameError.hasRoot
      ∧ (∃ a, AbsolutePath.tryFrom ⟨true, []⟩ = Except.ok a)
      ∧ fullList emptyPath = []
      ∧ Dirname.tryFrom emptyPath = Except.error DirnameError.empty
      ∧ Filename.tryFrom emptyPath = Except.error FilenameError.empty
      ∧ AbsolutePath.tryFrom emptyPath = Except.error ⟨⟩ :=
  ⟨by decide, (claim_c2 ⟨true, []⟩).2.2.1 (by decide), (claim_c2 ⟨true, []⟩).2.2.2.2.2.1 (by decide),
    (claim_c2 ⟨true, []⟩).2.2.2.2.2.2.1.mpr (by decide), by decide,
    (claim_c2 emptyPath).2.1 (by decide), (claim_c2 emptyPath).2.2.2.2.1 (by decide),
    (claim_c2 emptyPath).2.2.2.2.2.2.2 (by decide)⟩

/-- C4: for a file-state value `v` and absolute paths `A ≠ B`, rebasing with
`A` and with `B` each yield the respective base joined (host path-join) with
`v`'s unchanged relative path; both rebased values carry `v`'s relative path
verbatim and the respective base, and `v` itself is untouched (`with_base` is
a pure function of an immutable receiver: both calls read the same `v`). -/
theorem claim_c4 (v : VirtualPath FileMarker) (A B : AbsolutePath) (hAB : A ≠ B) :
    VirtualPath.toPathBuf (VirtualPath.withBase v A) = pushPath A.val v.path
      ∧ VirtualPath.toPathBuf (VirtualPath.withBase v B) = pushPath B.val v.path
      ∧ (VirtualPath.withBase v A).path = v.path
      ∧ (VirtualPath.withBase v B).path = v.path
      ∧ (VirtualPath.withBase v A).base = A.val
      ∧ (VirtualPath.withBase v B).base = B.val :=
  ⟨rfl, rfl, rfl, rfl, rfl, rfl⟩

def exFileV : VirtualPath FileMarker :=
  VirtualPath.withFileRaw VirtualPath.defaultDir ⟨false, [Comp.normal ['x', '.', 'm', 'd']]⟩

def exAbsA : AbsolutePath := ⟨⟨true, [Comp.normal ['a']]⟩⟩

def exAbsB : AbsolutePath := ⟨⟨true, [Comp.normal ['b']]⟩⟩

theorem claim_c4_witness :
    exAbsA ≠ exAbsB
      ∧ VirtualPath.toPathBuf (VirtualPath.withBase exFileV exAbsA) = pushPath exAbsA.val exFileV.path
      ∧ (VirtualPath.withBase exFileV exAbsB).path = exFileV.path :=
  ⟨by decide, (claim_c4 exFileV exAbsA exAbsB (by decide)).1,
    (claim_c4 exFileV exAbsA exAbsB (by decide)).2.2.2.1⟩

/-- C5: `strip_prefix` succeeds iff the relative path begins with the given
prefix (componentwise, as Rust compares components); on success the result
keeps the base unchanged and its relative path is the original one with the
prefix components removed; on failure the `StripPrefixError`-style error is
returned.  The state tag is preserved by the type of the operation. -/
theorem claim_c5 (M : Type) (v : VirtualPath M) (pre : RPath) :
    ((∃ r, VirtualPath.stripPrefix v pre = Except.ok r)
        ↔ (∃ t, fullList pre ++ t = fullList v.path))
      ∧ (∀ r, VirtualPath.stripPrefix v pre = Except.ok r →
          r.base = v.base ∧ fullList r.path = (fullList v.path).drop (fullList pre).length)
      ∧ ((¬ ∃ t, fullList pre ++ t = fullList v.path) →
          VirtualPath.stripPrefix v pre = Except.error ()) := by
  have key : VirtualPath.stripPrefix v pre
      = (match iterAfter (fullList v.path) (fullList pre) with
          | some rest => Except.ok (⟨v.base, ofFull rest⟩ : VirtualPath M)
          | none => Except.error ()) := by
    unfold VirtualPath.stripPrefix RPath.stripPrefix
    cases iterAfter (fullList v.path) (fullList pre) <;> rfl
  cases hI : iterAfter (fullList v.path) (fullList pre) with
  | none =>
    rw [hI] at key
    refine ⟨⟨?_, ?_⟩, ?_, fun _ => key⟩
    · rintro ⟨r, hr⟩
      rw [key] at hr
      exact absurd hr (by simp)
    · rintro ⟨t, ht⟩
      have happ := iterAfter_append (fullList pre) t
      rw [ht, hI] at happ
      exact absurd happ (by simp)
    · intro r hr
      rw [key] at hr
      exact absurd hr (by simp)
  | some rest =>
    rw [hI] at key
    have hl : fullList v.path = fullList pre ++ rest := iterAfter_some_eq _ _ _ hI
    have hrest : rest = (fullList v.path).drop (fullList pre).length := by
      rw [hl, List.drop_left]
    refine ⟨⟨fun _ => ⟨rest, hl.symm⟩, fun _ => ⟨⟨v.base, ofFull rest⟩, key⟩⟩, ?_, ?_⟩
    · intro r hr
      rw [key] at hr
      have hre : (⟨v.base, ofFull rest⟩ : VirtualPath M) = r := by
        injection hr
      subst hre
      refine ⟨rfl, ?_⟩
      show fullList (ofFull rest) = _
      rw [hrest, fullList_ofFull_drop]
    · intro hno
      exact absurd ⟨rest, hl.symm⟩ hno

def exStripV : VirtualPath DirMarker :=
  ⟨emptyPath, ⟨false, [Comp.normal ['a'], Comp.normal ['b']]⟩⟩

def exStripPre : RPath := ⟨false, [Comp.normal ['a']]⟩

def exStripRes : VirtualPath DirMarker := ⟨emptyPath, ⟨false, [Comp.normal ['b']]⟩⟩

theorem claim_c5_witness :
    VirtualPath.stripPrefix exStripV exStripPre = Except.ok exStripRes
      ∧ exStripRes.base = exStripV.base
      ∧ fullList exStripRes.path = (fullList exStripV.path).drop (fullList exStripPre).length :=
  ⟨by decide, (claim_c5 DirMarker exStripV exStripPre).2.1 exStripRes (by decide)⟩

theorem rsplitDot_eq_none (e : List Char) (h : '.' ∉ e) : rsplitDot e = none := by
  induction e with
  | nil => rfl
  | cons c t ih =>
    have hc : ¬(c = '.') := fun hc => h (hc ▸ List.mem_cons_self c t)
    have ht : '.' ∉ t := fun m => h (List.mem_cons_of_mem c m)
    simp [rsplitDot, ih ht, hc]

theorem rsplitDot_concat (b e : List Char) (h : '.' ∉ e) :
    rsplitDot (b ++ '.' :: e) = some (b, e) := by
  induction b with
  | nil => simp [rsplitDot, rsplitDot_eq_none e h]
  | cons c t ih => simp [rsplitDot, ih]

theorem stemOfName_ne_nil (n : List Char) (h : n ≠ []) : stemOfName n ≠ [] := by
  unfold stemOfName
  split
  · exact h
  · split
    · exact h
    · exact h
    · simp

/-- C6 counterexample: the claim quantifies over every file-state value and
every non-empty separator-free segment, but it fails on the code in two ways.
First, on a file-state value whose relative path is empty (reachable via
`with_file_raw("")`), `set_extension` finds no file stem and is a no-op, so
`extension()` stays `None`.  Second, for a dotted segment such as `tar.gz`,
`extension()` returns only the part after the last dot (`gz`), not the
segment that was set. -/
theorem claim_c6_counterexample :
    ¬(VirtualPath.extension
        (VirtualPath.withExtension (VirtualPath.withFileRaw VirtualPath.defaultDir emptyPath)
          ['t', 'x', 't'])
        = some ['t', 'x', 't'])
      ∧ ¬(VirtualPath.extension
            (VirtualPath.withExtension
              (VirtualPath.withFileRaw VirtualPath.defaultDir ⟨false, [Comp.normal ['a']]⟩)
              ['t', 'a', 'r', '.', 'g', 'z'])
            = some ['t', 'a', 'r', '.', 'g', 'z']) := by
  constructor <;> decide

/-- C6 (amended): for every file-state `VirtualPath` whose relative path ends
in a normal component, and every non-empty segment `e` containing no
path-separator and no `.` characters, `v.with_extension(e).extension()`
equals `Some(e)`.  (The component hypothesis rules out the empty relative
path reachable via raw bypasses, where `set_extension` is a no-op; the
dot-free hypothesis is needed because `extension()` reads only the part after
the last dot.) -/
theorem claim_c6 (v : VirtualPath FileMarker) (n e : List Char)
    (hn : fileName v.path = some n) (hn0 : n ≠ []) (he : e ≠ [])
    (hsep : '/' ∉ e) (hdot : '.' ∉ e) :
    VirtualPath.extension (VirtualPath.withExtension v e) = some e := by
  have hset : RPath.setExtension v.path e
      = ⟨v.path.hasRoot, v.path.comps.dropLast ++ [Comp.normal (stemOfName n ++ '.' :: e)]⟩ := by
    unfold RPath.setExtension
    rw [hn]
    simp [he]
  show RPath.extension (RPath.setExtension v.path e) = some e
  rw [hset]
  have hfn : fileName ⟨v.path.hasRoot, v.path.comps.dropLast ++ [Comp.normal (stemOfName n ++ '.' :: e)]⟩
      = some (stemOfName n ++ '.' :: e) := by
    unfold fileName
    rw [List.getLast?_concat]
  unfold RPath.extension
  rw [hfn]
  show extOfName (stemOfName n ++ '.' :: e) = some e
  have hstem : stemOfName n ≠ [] := stemOfName_ne_nil n hn0
  have hne2 : ¬(stemOfName n ++ '.' :: e = ['.', '.']) := by
    intro hbad
    have hlen := congrArg List.length hbad
    simp [List.length_append] at hlen
    obtain ⟨c, t, hct⟩ := List.exists_cons_of_ne_nil hstem
    obtain ⟨c2, t2, hct2⟩ := List.exists_cons_of_ne_nil he
    rw [hct, hct2] at hlen
    simp at hlen
    omega
  unfold extOfName
  rw [if_neg hne2, rsplitDot_concat _ _ hdot]
  obtain ⟨c, t, hct⟩ := List.exists_cons_of_ne_nil hstem
  rw [hct]

theorem claim_c6_witness :
    fileName exFileV.path = some ['x', '.', 'm', 'd']
      ∧ (['x', '.', 'm', 'd'] : List Char) ≠ []
      ∧ (['p', 'd', 'f'] : List Char) ≠ []
      ∧ '/' ∉ (['p', 'd', 'f'] : List Char)
      ∧ '.' ∉ (['p', 'd', 'f'] : List Char)
      ∧ VirtualPath.extension (VirtualPath.withExtension exFileV ['p', 'd', 'f'])
          = some ['p', 'd', 'f'] :=
  ⟨by decide, by decide, by decide, by decide, by decide,
    claim_c6 exFileV ['x', '.', 'm', 'd'] ['p', 'd', 'f']
      (by decide) (by decide) (by decide) (by decide) (by decide)⟩

/-- C7 counterexample: `file_stem` is implemented as
`self.path.file_stem().unwrap()`; on a file-state value whose relative path
is empty (reachable via `with_file_raw("")`), `Path::file_stem` is `None` and
the `unwrap` panics.  In the embedding the panic is the `none` result. -/
theorem claim_c7_counterexample :
    VirtualPath.fileStem (VirtualPath.withFileRaw VirtualPath.defaultDir emptyPath) = none := by
  decide

/-- C7 (amended): `file_stem()` succeeds exactly when the relative path has a
file name (a final normal component) — which every validated
`with_file`-built path whose last pushed component is a plain name has, but
which raw bypasses such as `with_file_raw("")` can violate — and in that case
it yields the final component without its extension. -/
theorem claim_c7 (v : VirtualPath FileMarker) :
    ((VirtualPath.fileStem v).isSome = true ↔ (fileName v.path).isSome = true)
      ∧ (∀ n, fileName v.path = some n → VirtualPath.fileStem v = some (stemOfName n)) := by
  constructor
  · simp [VirtualPath.fileStem]
  · intro n hn
    simp [VirtualPath.fileStem, hn]

theorem claim_c7_witness :
    fileName exFileV.path = some ['x', '.', 'm', 'd']
      ∧ VirtualPath.fileStem exFileV = some (stemOfName ['x', '.', 'm', 'd']) :=
  ⟨by decide, (claim_c7 exFileV).2 ['x', '.', 'm', 'd'] (by decide)⟩

end VPathModel
